import Mathlib

/-!
Verification development for the 3D-Maze-Game render engine
(src/render_engine.c).

Modelling conventions:
* The C floating-point type rounding_t is modelled by an arbitrary linear
  ordered field with a floor structure (instantiated at ℚ for concrete
  evaluation and at ℝ where the camera trigonometry is involved).  Exact
  field arithmetic stands in for floating point; the C constant M_PI is
  modelled by the real number π.
* uint8_t / uint16_t quantities that are only ever in range (colors,
  frame dimensions, buffer indices) are modelled by ℕ.
* The framebuffer is a record of dimensions together with a total map
  from flat indices to colors; only indices below width*height are
  meaningful, and the paint primitives are proved to touch no others.
* The C cast (uint16_t)x of a nonnegative rounding_t value is modelled
  by Nat.floor (truncation toward zero of a nonnegative value).
* Byte output performed through hal_UART_TxByte is modelled as a list of
  the bytes written, in order.
-/

/-- Three dimensional vector, mirroring vector_t from the C source. -/
structure Vec3 (α : Type) where
  x : α
  y : α
  z : α
deriving Repr, DecidableEq

/-- Screen-space point, mirroring point_t from the C source. -/
structure Point2 (α : Type) where
  x : α
  y : α
deriving Repr, DecidableEq

/-- Triangle with a color index, mirroring triangle_t. -/
structure Triangle (α : Type) where
  color : ℕ
  p1 : Vec3 α
  p2 : Vec3 α
  p3 : Vec3 α
deriving Repr, DecidableEq

/-- Camera state, mirroring camera_t.  rotation.y is the pitch and
rotation.z the yaw, both in degrees. -/
structure Camera (α : Type) where
  location : Vec3 α
  rotation : Vec3 α
  fovHorizontal : α
  fovVertical : α

/-- World state, mirroring world_t: a background color and the triangle
list. -/
structure World (α : Type) where
  backgroundColor : ℕ
  triangles : List (Triangle α)

/-- Framebuffer, mirroring framebuffer_t: dimensions plus the flat
row-major pixel store.  The buffer is modelled as a total function on ℕ;
the renderer only ever writes indices below width * height. -/
structure Framebuffer where
  width : ℕ
  height : ℕ
  buffer : ℕ → ℕ

variable {α : Type} [LinearOrderedField α] [FloorRing α]

/-- paintPixel from the C source: write color at (x, y) when
x < width and y < height, otherwise do nothing. -/
def paintPixel (frame : Framebuffer) (x y : ℕ) (color : ℕ) : Framebuffer :=
  if x < frame.width ∧ y < frame.height then
    { frame with buffer := fun i => if i = x + y * frame.width then color else frame.buffer i }
  else frame

/-- paintPixelf from the C source: drop negative coordinates, then
truncate to integers and delegate to paintPixel.  The C cast
(uint16_t)x of the nonnegative value is modelled by Nat.floor. -/
def paintPixelf (frame : Framebuffer) (x y : α) (color : ℕ) : Framebuffer :=
  if 0 ≤ x ∧ 0 ≤ y then paintPixel frame ⌊x⌋₊ ⌊y⌋₊ color else frame

/-- Fold a list of fractional paint requests onto a framebuffer with
paintPixelf, in order. -/
def paintAll (frame : Framebuffer) (reqs : List (α × α)) (color : ℕ) : Framebuffer :=
  reqs.foldl (fun f p => paintPixelf f p.1 p.2 color) frame

/-- Clearing loop at the top of Render_Engine_RenderFrame: every flat
index below width * height is set to the background color. -/
def clearFrame (bg : ℕ) (frame : Framebuffer) : Framebuffer :=
  { frame with buffer := fun i => if i < frame.width * frame.height then bg else frame.buffer i }

/-- writeTerminalNumber from the C source, with the emitted bytes
collected into a list.  The atDigits flag records whether an earlier
(more significant) digit has already been written. -/
def writeTerminalNumber (number : ℕ) : List ℕ :=
  let hundreds := number / 100 % 10
  let s1 := if 0 < hundreds then ([hundreds + 48], true) else ([], false)
  let tens := number / 10 % 10
  let s2 := if 0 < tens ∨ s1.2 = true then (s1.1 ++ [tens + 48], true) else s1
  let ones := number % 10
  let s3 := if 0 < ones ∨ s2.2 = true then (s2.1 ++ [ones + 48], true) else s2
  s3.1

/-- changeTerminalCursorLocation from the C source as a byte list:
ESC, the bracket, row + 1, the semicolon, column + 1, and the letter H. -/
def changeTerminalCursorLocation (x y : ℕ) : List ℕ :=
  [27, 91] ++ writeTerminalNumber (y + 1) ++ [59] ++ writeTerminalNumber (x + 1) ++ [72]

/-- changeTerminalColor from the C source as a byte list: ESC, the
bracket, the color index, and the letter m (byte 109). -/
def changeTerminalColor (color : ℕ) : List ℕ :=
  [27, 91] ++ writeTerminalNumber color ++ [109]

/-- Body of the display loop of Render_Engine_DisplayFrame.  The first
argument is the remaining iteration count (the C loop runs for exactly
width * height iterations), i is the current flat index and lastColor
the color most recently selected on the terminal.  Each iteration emits
the row separator when a row boundary is crossed, a color-change
sequence when the cell differs from lastColor, and one space (byte 32)
per cell. -/
def displayLoop (frame : Framebuffer) : ℕ → ℕ → ℕ → List ℕ
  | 0, _, _ => []
  | fuel + 1, i, lastColor =>
      (if 0 < i ∧ i % frame.width = 0 then [13, 10] else []) ++
      (if lastColor ≠ frame.buffer i then
        changeTerminalColor (frame.buffer i) ++ [32] ++
          displayLoop frame fuel (i + 1) (frame.buffer i)
      else [32] ++ displayLoop frame fuel (i + 1) lastColor)

/-- Render_Engine_DisplayFrame as a byte list: home the cursor, then run
the display loop over all width * height cells starting from flat index
0 with the previously-emitted-color tracker starting at 0.  The
initial busy-wait on UART_IsTransmitting performs no output and is not
modelled. -/
def displayFrame (frame : Framebuffer) : List ℕ :=
  changeTerminalCursorLocation 0 0 ++
    displayLoop frame (frame.width * frame.height) 0 0

/-- Truncation toward zero of a field element, modelling the C float to
integer conversion used by fmod. -/
def truncToZero (x : α) : ℤ :=
  if 0 ≤ x then ⌊x⌋ else ⌈x⌉

/-- Model of the C library fmod: a - b * trunc(a / b). -/
def fmod (a b : α) : α :=
  a - b * truncToZero (a / b)

/-- Yaw normalization of Render_Engine_RenderFrame (lines 35 to 42 of
the C source), still in degrees: take the absolute value, fold with
fmod(. + 180, 360) - 180, and reapply the original sign when the yaw
was negative. -/
def normalizeYaw (yaw : α) : α :=
  let a := if yaw < 0 then -yaw else yaw
  let b := fmod (a + 180) 360 - 180
  if yaw < 0 then -b else b

/-- Pixel-center sampling correction applied at the end of each column
iteration of the C rasterizer: when the fractional part of x is not one
half, x is snapped to floor(x) + one half. -/
def snap (x : α) : α :=
  if x - (⌊x⌋ : α) ≠ 1 / 2 then (⌊x⌋ : α) + 1 / 2 else x

/-- Values visited by the countdown loop for (y = top; y > bot; y--) of
the C source: top, top - 1, and so on while the value stays strictly
above bot.  The iteration count of that loop is exactly the ceiling of
top - bot, which gives this closed form; the unfolding lemma
paintLoop_eq below certifies the loop reading. -/
def paintLoop (top bot : α) : List α :=
  (List.range ⌈top - bot⌉₊).map (fun k : ℕ => top - (k : α))

/-- One vertical column of triangle painting: the inner y countdown
loop followed by the catch-one-more paint at bottomY, at horizontal
position x.  The two y bounds are interpolated from the anchor point by
the two slopes; when swapFlip is set (general case of the C rasterizer)
an inverted pair is swapped first. -/
def columnAt (x anchorX anchorY sTop sBot : α) (swapFlip : Bool) : List (α × α) :=
  let topY := sTop * (x - anchorX) + anchorY
  let bottomY := sBot * (x - anchorX) + anchorY
  let tb := if swapFlip = true ∧ topY < bottomY then (bottomY, topY) else (topY, bottomY)
  (paintLoop tb.1 tb.2 ++ [tb.2]).map (fun y => (x, y))

/-- Column walk of the vertical-edge case with leftDirection = 0 in the
C source: x runs from the top vertex toward side.x by the increment and
pixel-center snap of the C loop, emitting one column per iteration.
Both interpolated lines are anchored at the side vertex. -/
def walkUp (sideX sideY sTop sBot : α) (x : α) : List (α × α) :=
  if h : x < sideX then
    columnAt x sideX sideY sTop sBot false ++ walkUp sideX sideY sTop sBot (snap x + 1)
  else []
termination_by ⌈2 * (sideX - x)⌉₊
decreasing_by
  have hs : x + 1 / 2 ≤ snap x + 1 := by
    unfold snap; split_ifs with hfrac
    · have h2 : x - 1 < (⌊x⌋ : α) := Int.sub_one_lt_floor x
      linarith
    · linarith
  have hpos : (0 : α) < 2 * (sideX - x) := by linarith
  have hn : 1 ≤ ⌈2 * (sideX - x)⌉₊ := Nat.ceil_pos.mpr hpos
  have hcast : ((⌈2 * (sideX - x)⌉₊ - 1 : ℕ) : α) = (⌈2 * (sideX - x)⌉₊ : α) - 1 := by
    rw [Nat.cast_sub hn, Nat.cast_one]
  have hstep : ⌈2 * (sideX - (snap x + 1))⌉₊ ≤ ⌈2 * (sideX - x)⌉₊ - 1 :=
    Nat.ceil_le.mpr (by rw [hcast]; have := Nat.le_ceil (2 * (sideX - x)); linarith)
  omega

/-- Column walk of the vertical-edge case with leftDirection = 1 in the
C source: x runs from the top vertex downward toward side.x with the
same column body and snap, but decrementing. -/
def walkDown (sideX sideY sTop sBot : α) (x : α) : List (α × α) :=
  if h : x > sideX then
    columnAt x sideX sideY sTop sBot false ++ walkDown sideX sideY sTop sBot (snap x - 1)
  else []
termination_by ⌈2 * (x - sideX)⌉₊
decreasing_by
  have hs : snap x - 1 ≤ x - 1 / 2 := by
    unfold snap; split_ifs with hfrac
    · have h2 : (⌊x⌋ : α) ≤ x := Int.floor_le x
      linarith
    · linarith
  have hpos : (0 : α) < 2 * (x - sideX) := by linarith
  have hn : 1 ≤ ⌈2 * (x - sideX)⌉₊ := Nat.ceil_pos.mpr hpos
  have hcast : ((⌈2 * (x - sideX)⌉₊ - 1 : ℕ) : α) = (⌈2 * (x - sideX)⌉₊ : α) - 1 := by
    rw [Nat.cast_sub hn, Nat.cast_one]
  have hstep : ⌈2 * (snap x - 1 - sideX)⌉₊ ≤ ⌈2 * (x - sideX)⌉₊ - 1 :=
    Nat.ceil_le.mpr (by rw [hcast]; have := Nat.le_ceil (2 * (x - sideX)); linarith)
  omega

/-- Column walk of the general case of the C rasterizer: x runs upward
toward the bound; columns whose x lies outside the horizontal frame
range are skipped entirely (including the snap, since the C continue
bypasses it), and painted columns swap inverted y bounds. -/
def walkUpClipped (w : ℕ) (bound anchorX anchorY sTop sBot : α) (x : α) : List (α × α) :=
  if h : x < bound then
    if x < 0 ∨ (w : α) ≤ x then
      walkUpClipped w bound anchorX anchorY sTop sBot (x + 1)
    else
      columnAt x anchorX anchorY sTop sBot true ++
        walkUpClipped w bound anchorX anchorY sTop sBot (snap x + 1)
  else []
termination_by ⌈2 * (bound - x)⌉₊
decreasing_by
  · have hpos : (0 : α) < 2 * (bound - x) := by linarith
    have hn : 1 ≤ ⌈2 * (bound - x)⌉₊ := Nat.ceil_pos.mpr hpos
    have hcast : ((⌈2 * (bound - x)⌉₊ - 1 : ℕ) : α) = (⌈2 * (bound - x)⌉₊ : α) - 1 := by
      rw [Nat.cast_sub hn, Nat.cast_one]
    have hstep : ⌈2 * (bound - (x + 1))⌉₊ ≤ ⌈2 * (bound - x)⌉₊ - 1 :=
      Nat.ceil_le.mpr (by rw [hcast]; have := Nat.le_ceil (2 * (bound - x)); linarith)
    omega
  · have hs : x + 1 / 2 ≤ snap x + 1 := by
      unfold snap; split_ifs with hfrac
      · have h2 : x - 1 < (⌊x⌋ : α) := Int.sub_one_lt_floor x
        linarith
      · linarith
    have hpos : (0 : α) < 2 * (bound - x) := by linarith
    have hn : 1 ≤ ⌈2 * (bound - x)⌉₊ := Nat.ceil_pos.mpr hpos
    have hcast : ((⌈2 * (bound - x)⌉₊ - 1 : ℕ) : α) = (⌈2 * (bound - x)⌉₊ : α) - 1 := by
      rw [Nat.cast_sub hn, Nat.cast_one]
    have hstep : ⌈2 * (bound - (snap x + 1))⌉₊ ≤ ⌈2 * (bound - x)⌉₊ - 1 :=
      Nat.ceil_le.mpr (by rw [hcast]; have := Nat.le_ceil (2 * (bound - x)); linarith)
    omega

/-- Left-point selection of the C rasterizer (lines 107 to 116): start
from p1, replace by p2 when strictly smaller in x, then by p3.  The
second component is the vertex index recorded in leftSel. -/
def selLeft (p1 p2 p3 : Point2 α) : Point2 α × ℕ :=
  let a := if p1.x > p2.x then (p2, 2) else (p1, 1)
  if a.1.x > p3.x then (p3, 3) else a

/-- Right-point selection of the C rasterizer (lines 118 to 128),
parameterized by the already-computed leftSel index. -/
def selRight (p1 p2 p3 : Point2 α) (leftSel : ℕ) : Point2 α × ℕ :=
  let a := if (p3.x < p2.x ∨ leftSel = 3) ∧ leftSel ≠ 2 then (p2, 2) else (p3, 3)
  if a.1.x < p1.x ∧ leftSel ≠ 1 then (p1, 1) else a

/-- Center-point selection of the C rasterizer (lines 130 to 137): the
vertex not claimed by left or right, recovered from the index sum.  The
C code leaves center unassigned when the sum is not 3, 4 or 5; that
case is unreachable (leftSel and rightSel are always two distinct
indices, see the classification theorem below), and the model returns
p1 there, matching the reachable sum = 5 branch. -/
def selCenter (p1 p2 p3 : Point2 α) (leftSel rightSel : ℕ) : Point2 α :=
  if leftSel + rightSel = 3 then p3
  else if leftSel + rightSel = 4 then p2
  else p1

/-- Left point of the classification, as used by the rasterizer. -/
def classifyLeft (p1 p2 p3 : Point2 α) : Point2 α :=
  (selLeft p1 p2 p3).1

/-- Right point of the classification, as used by the rasterizer. -/
def classifyRight (p1 p2 p3 : Point2 α) : Point2 α :=
  (selRight p1 p2 p3 (selLeft p1 p2 p3).2).1

/-- Center point of the classification, as used by the rasterizer. -/
def classifyCenter (p1 p2 p3 : Point2 α) : Point2 α :=
  selCenter p1 p2 p3 (selLeft p1 p2 p3).2 (selRight p1 p2 p3 (selLeft p1 p2 p3).2).2

/-- Top point of the vertical-edge case (lines 168 to 190): the higher
of the two vertices sharing an x coordinate. -/
def vertTop (left center right : Point2 α) : Point2 α :=
  if left.x = center.x then (if left.y > center.y then left else center)
  else (if right.y > center.y then right else center)

/-- Bottom point of the vertical-edge case: the lower of the two
vertices sharing an x coordinate. -/
def vertBottom (left center right : Point2 α) : Point2 α :=
  if left.x = center.x then (if left.y > center.y then center else left)
  else (if right.y > center.y then center else right)

/-- Side point of the vertical-edge case: the vertex opposite the
vertical edge. -/
def vertSide (left center right : Point2 α) : Point2 α :=
  if left.x = center.x then right else left

/-- Scan conversion of one triangle given its three projected vertices
(lines 106 to 326 of the C source), as the ordered list of fractional
paint requests handed to paintPixelf.  The three branches are the all-x
equal vertical line, the vertical-edge case (walking away from the side
vertex, direction given by which pair shares an x), and the general
case split at center.x into two clipped spans plus the boundary-pixel
patch at right.x. -/
def rasterizeTriangle (w : ℕ) (p1 p2 p3 : Point2 α) : List (α × α) :=
  let left := selLeft p1 p2 p3
  let right := selRight p1 p2 p3 left.2
  let center := selCenter p1 p2 p3 left.2 right.2
  if left.1.x = center.x ∧ center.x = right.1.x then
    if center.x < 0 ∨ (w : α) ≤ center.x then []
    else
      let mx := max (max p1.y p2.y) p3.y
      let mn := min (min p1.y p2.y) p3.y
      (paintLoop mx mn).map (fun y => (center.x, y))
  else if left.1.x = center.x ∨ center.x = right.1.x then
    let top := vertTop left.1 center right.1
    let bottom := vertBottom left.1 center right.1
    let side := vertSide left.1 center right.1
    let upperSlope := (top.y - side.y) / (top.x - side.x)
    let lowerSlope := (bottom.y - side.y) / (bottom.x - side.x)
    if left.1.x = center.x then
      walkUp side.x side.y upperSlope lowerSlope top.x ++
        (if side.x - (⌊side.x⌋ : α) < 1 / 2 then [(side.x, side.y)] else [])
    else
      walkDown side.x side.y upperSlope lowerSlope top.x ++
        (if side.x - |side.x| > 1 / 2 then [(side.x, side.y)] else [])
  else
    let slopeLeftCenter := (center.y - left.1.y) / (center.x - left.1.x)
    let slopeLeftRight := (right.1.y - left.1.y) / (right.1.x - left.1.x)
    let slopeCenterRight := (right.1.y - center.y) / (right.1.x - center.x)
    walkUpClipped w center.x left.1.x left.1.y slopeLeftCenter slopeLeftRight left.1.x ++
      walkUpClipped w right.1.x right.1.x right.1.y slopeCenterRight slopeLeftRight center.x ++
      (if right.1.x - (⌊right.1.x⌋ : α) < 1 / 2 ∧ 0 ≤ right.1.x ∧ right.1.x < (w : α) then
        [(right.1.x, right.1.y)] else [])

/-- dotProduct from the C source. -/
def dotProduct (a b : Vec3 α) : α :=
  a.x * b.x + a.y * b.y + a.z * b.z

/-- Centroid of a triangle as computed inside compareTriangles. -/
def triCenter (t : Triangle α) : Vec3 α :=
  ⟨(t.p1.x + t.p2.x + t.p3.x) / 3,
   (t.p1.y + t.p2.y + t.p3.y) / 3,
   (t.p1.z + t.p2.z + t.p3.z) / 3⟩

/-- Squared distance from the camera location to a triangle centroid,
as computed inside compareTriangles. -/
def distSq (cam : Vec3 α) (t : Triangle α) : α :=
  ((triCenter t).x - cam.x) * ((triCenter t).x - cam.x) +
    ((triCenter t).y - cam.y) * ((triCenter t).y - cam.y) +
    ((triCenter t).z - cam.z) * ((triCenter t).z - cam.z)

/-- compareTriangles from the C source: 0 on equal distances, 1 when
the first triangle is nearer, -1 when it is farther, so that sorting
ascending by this comparator puts farther triangles first. -/
def compareTriangles (cam : Vec3 α) (a b : Triangle α) : ℤ :=
  if distSq cam a = distSq cam b then 0
  else if distSq cam a < distSq cam b then 1
  else -1

/-- Per-frame sorted copy of the world triangles.  The C source copies
the triangles and hands them to the C library qsort with
compareTriangles; qsort is modelled as a comparator-sorted permutation
of its input, realized by mergeSort on the predicate that the
comparator is nonpositive. -/
def sortTriangles (cam : Vec3 α) (l : List (Triangle α)) : List (Triangle α) :=
  l.mergeSort (fun a b => decide (compareTriangles cam a b ≤ 0))

/-- Camera-relative vertex delta (lines 75 to 83 of the C source). -/
def pDelta (camera : Camera α) (p : Vec3 α) : Vec3 α :=
  ⟨p.x - camera.location.x, p.y - camera.location.y, p.z - camera.location.z⟩

/-- Model of the C library atan2 as the argument of the complex number
x + y i, with value in the interval from -pi exclusive to pi
inclusive. -/
noncomputable def atan2 (y x : ℝ) : ℝ :=
  Complex.arg ⟨x, y⟩

/-- Camera horizontal angle in radians (lines 35 to 43 of the C
source): the normalized yaw converted to radians. -/
noncomputable def cameraHorizontalAngle (yaw : ℝ) : ℝ :=
  normalizeYaw yaw * (Real.pi / 180)

/-- Camera vertical angle in radians (line 44 of the C source). -/
noncomputable def cameraVerticalAngle (pitch : ℝ) : ℝ :=
  pitch * Real.pi / 180

/-- Third component of the camera heading vector, exactly as the
ternary expression on line 47 of the C source: the tangent when the
radian vertical angle is at or beyond 90 in magnitude, and otherwise
the integer sign test (v greater than 0) minus (v less than 0), scaled
by 10000. -/
noncomputable def camDirZ (pitch : ℝ) : ℝ :=
  let v := cameraVerticalAngle pitch
  if v ≤ -90 ∨ 90 ≤ v then Real.tan v
  else ((if 0 < v then (1 : ℝ) else 0) - (if v < 0 then (1 : ℝ) else 0)) * 10000

/-- Camera heading vector (lines 45 to 47 of the C source). -/
noncomputable def cameraDirection (rotation : Vec3 ℝ) : Vec3 ℝ :=
  ⟨Real.cos (cameraHorizontalAngle rotation.z),
   Real.sin (cameraHorizontalAngle rotation.z),
   camDirZ rotation.y⟩

/-- pointToScreen from the C source: spherical projection of a
camera-relative delta into fractional screen coordinates. -/
noncomputable def pointToScreen (delta : Vec3 ℝ)
    (camHAngle camVAngle angleHPixel angleVPixel : ℝ)
    (halfWidth halfHeight : ℕ) : Point2 ℝ :=
  let angleH0 := if delta.x = 0 ∧ delta.y = 0 then 0 else atan2 delta.y delta.x - camHAngle
  let angleHorizontal :=
    if angleH0 ≤ -Real.pi then angleH0 + 2 * Real.pi
    else if angleH0 > Real.pi then angleH0 - 2 * Real.pi
    else angleH0
  let angleVertical :=
    if delta.x = 0 ∧ delta.y = 0 ∧ delta.z = 0 then 0
    else atan2 delta.z (Real.sqrt (delta.x * delta.x + delta.y * delta.y)) - camVAngle
  ⟨(halfWidth : ℝ) - angleHorizontal / angleHPixel,
   (halfHeight : ℝ) - angleVertical / angleVPixel⟩

/-- Paint requests produced by Render_Engine_RenderFrame for a single
triangle of the sorted per-frame copy: cull when all three
camera-relative deltas have nonpositive dot product with the heading,
otherwise project the three vertices and scan convert. -/
noncomputable def triangleRequests (camera : Camera ℝ) (w h : ℕ) (t : Triangle ℝ) : List (ℝ × ℝ) :=
  let camH := cameraHorizontalAngle camera.rotation.z
  let camV := cameraVerticalAngle camera.rotation.y
  let angleHPixel := camera.fovHorizontal * Real.pi / (w * 180)
  let angleVPixel := camera.fovVertical * Real.pi / (h * 180)
  let d1 := pDelta camera t.p1
  let d2 := pDelta camera t.p2
  let d3 := pDelta camera t.p3
  let dir := cameraDirection camera.rotation
  if dotProduct d1 dir ≤ 0 ∧ dotProduct d2 dir ≤ 0 ∧ dotProduct d3 dir ≤ 0 then []
  else
    rasterizeTriangle w
      (pointToScreen d1 camH camV angleHPixel angleVPixel (w / 2) (h / 2))
      (pointToScreen d2 camH camV angleHPixel angleVPixel (w / 2) (h / 2))
      (pointToScreen d3 camH camV angleHPixel angleVPixel (w / 2) (h / 2))

/-- Render_Engine_RenderFrame: clear the framebuffer to the background
color, sort the per-frame triangle copy back to front, then paint each
triangle's requests in order through paintPixelf. -/
noncomputable def renderFrame (world : World ℝ) (camera : Camera ℝ) (frame : Framebuffer) : Framebuffer :=
  let cleared := clearFrame world.backgroundColor frame
  (sortTriangles camera.location world.triangles).foldl
    (fun f t => paintAll f (triangleRequests camera frame.width frame.height t) t.color) cleared

/-- Heading z-component as described by the amended claim, in the
spec's vocabulary: the tangent applies only once the radian pitch value
itself reaches 90 in magnitude (that is, when the degree pitch times pi
reaches 16200 in magnitude), and otherwise the result is the three-way
sign of the pitch scaled by 10000, which is 0 at pitch exactly 0. -/
noncomputable def pitchHeadingAmended (pitch : ℝ) : ℝ :=
  if 16200 ≤ |pitch| * Real.pi then Real.tan (pitch * Real.pi / 180)
  else (if 0 < pitch then (1 : ℝ) else if pitch < 0 then -1 else 0) * 10000

/-- Normalized yaw as written in the claim for the yaw formula: the
expression ((|yaw| + 180) mod 360) - 180 with the mathematical floor
mod, and the original sign reapplied when the yaw is negative. -/
def yawFormulaSpec (yaw : α) : α :=
  let m := (|yaw| + 180) - 360 * (⌊(|yaw| + 180) / 360⌋ : α)
  if yaw < 0 then -(m - 180) else m - 180

lemma perm3_213 {X : Type} (a b c : X) : [b, a, c].Perm [a, b, c] :=
  List.Perm.swap a b [c]

lemma perm3_132 {X : Type} (a b c : X) : [a, c, b].Perm [a, b, c] :=
  List.Perm.cons a (List.Perm.swap b c [])

lemma perm3_231 {X : Type} (a b c : X) : [b, c, a].Perm [a, b, c] :=
  (List.Perm.cons b (List.Perm.swap a c [])).trans (List.Perm.swap a b [c])

lemma perm3_312 {X : Type} (a b c : X) : [c, a, b].Perm [a, b, c] :=
  (List.Perm.swap a c [b]).trans (List.Perm.cons a (List.Perm.swap b c []))

lemma perm3_321 {X : Type} (a b c : X) : [c, b, a].Perm [a, b, c] :=
  (List.Perm.cons c (List.Perm.swap a b [])).trans
    ((List.Perm.swap a c [b]).trans (List.Perm.cons a (List.Perm.swap b c [])))

lemma classify_master (p1 p2 p3 : Point2 α) :
    (selLeft p1 p2 p3).2 ≠ (selRight p1 p2 p3 (selLeft p1 p2 p3).2).2 ∧
    ([(selLeft p1 p2 p3).1,
      selCenter p1 p2 p3 (selLeft p1 p2 p3).2 (selRight p1 p2 p3 (selLeft p1 p2 p3).2).2,
      (selRight p1 p2 p3 (selLeft p1 p2 p3).2).1] : List (Point2 α)).Perm [p1, p2, p3] ∧
    (selLeft p1 p2 p3).1.x ≤
      (selCenter p1 p2 p3 (selLeft p1 p2 p3).2 (selRight p1 p2 p3 (selLeft p1 p2 p3).2).2).x ∧
    (selCenter p1 p2 p3 (selLeft p1 p2 p3).2 (selRight p1 p2 p3 (selLeft p1 p2 p3).2).2).x ≤
      (selRight p1 p2 p3 (selLeft p1 p2 p3).2).1.x := by
  unfold selLeft selRight selCenter
  by_cases h12 : p1.x > p2.x <;> by_cases h13 : p1.x > p3.x <;> by_cases h23 : p2.x > p3.x <;>
    simp [h12, h13, h23] <;>
    first
      | exact ⟨perm3_321 _ _ _, by linarith, by linarith⟩
      | exact ⟨perm3_231 _ _ _, by linarith, by linarith⟩
      | exact ⟨perm3_213 _ _ _, by linarith, by linarith⟩
      | exact ⟨perm3_312 _ _ _, by linarith, by linarith⟩
      | exact ⟨perm3_132 _ _ _, by linarith, by linarith⟩
      | exact ⟨List.Perm.swap p2 p3 [], by linarith, by linarith⟩
      | exact ⟨by linarith, by linarith⟩

/-- C9: for every triple of projected points, the classification
assigns each of the three points to exactly one of left, center, right
(leftSel and rightSel are always distinct, and the three selected
points are a permutation of the projected vertices), and the selected
points satisfy left.x less-or-equal center.x less-or-equal right.x.
The non-NaN proviso of the claim is vacuous in this exact-arithmetic
model. -/
theorem c9_classification (p1 p2 p3 : Point2 ℝ) :
    (selLeft p1 p2 p3).2 ≠ (selRight p1 p2 p3 (selLeft p1 p2 p3).2).2 ∧
    ([classifyLeft p1 p2 p3, classifyCenter p1 p2 p3, classifyRight p1 p2 p3] :
        List (Point2 ℝ)).Perm [p1, p2, p3] ∧
    (classifyLeft p1 p2 p3).x ≤ (classifyCenter p1 p2 p3).x ∧
    (classifyCenter p1 p2 p3).x ≤ (classifyRight p1 p2 p3).x :=
  classify_master p1 p2 p3

/-- C7: the shape classification protects every slope division.  In
the vertical-edge case (exactly one pair of equal x coordinates among
left, center, right) both slope denominators top.x - side.x and
bottom.x - side.x are nonzero, and in the general case (no equal pair)
the three denominators center.x - left.x, right.x - left.x and
right.x - center.x are all nonzero. -/
theorem c7_slope_denominators {α : Type} [LinearOrderedField α] [FloorRing α]
    (p1 p2 p3 : Point2 α) :
    (((classifyLeft p1 p2 p3).x = (classifyCenter p1 p2 p3).x ∨
        (classifyCenter p1 p2 p3).x = (classifyRight p1 p2 p3).x) →
      ¬((classifyLeft p1 p2 p3).x = (classifyCenter p1 p2 p3).x ∧
        (classifyCenter p1 p2 p3).x = (classifyRight p1 p2 p3).x) →
      (vertTop (classifyLeft p1 p2 p3) (classifyCenter p1 p2 p3) (classifyRight p1 p2 p3)).x -
          (vertSide (classifyLeft p1 p2 p3) (classifyCenter p1 p2 p3) (classifyRight p1 p2 p3)).x ≠ 0 ∧
      (vertBottom (classifyLeft p1 p2 p3) (classifyCenter p1 p2 p3) (classifyRight p1 p2 p3)).x -
          (vertSide (classifyLeft p1 p2 p3) (classifyCenter p1 p2 p3) (classifyRight p1 p2 p3)).x ≠ 0) ∧
    ((classifyLeft p1 p2 p3).x ≠ (classifyCenter p1 p2 p3).x →
      (classifyCenter p1 p2 p3).x ≠ (classifyRight p1 p2 p3).x →
      (classifyCenter p1 p2 p3).x - (classifyLeft p1 p2 p3).x ≠ 0 ∧
      (classifyRight p1 p2 p3).x - (classifyLeft p1 p2 p3).x ≠ 0 ∧
      (classifyRight p1 p2 p3).x - (classifyCenter p1 p2 p3).x ≠ 0) := by
  obtain ⟨-, -, hLC, hCR⟩ := classify_master p1 p2 p3
  constructor
  · intro hor hnot
    unfold vertTop vertBottom vertSide
    by_cases hlc : (classifyLeft p1 p2 p3).x = (classifyCenter p1 p2 p3).x
    · have hcr : (classifyCenter p1 p2 p3).x ≠ (classifyRight p1 p2 p3).x :=
        fun h => hnot ⟨hlc, h⟩
      rw [if_pos hlc, if_pos hlc, if_pos hlc]
      split_ifs <;>
        refine ⟨sub_ne_zero_of_ne ?_, sub_ne_zero_of_ne ?_⟩ <;>
        first
          | exact hcr
          | exact fun h => hcr (hlc.symm.trans h)
    · have hcr : (classifyCenter p1 p2 p3).x = (classifyRight p1 p2 p3).x :=
        hor.resolve_left hlc
      rw [if_neg hlc, if_neg hlc, if_neg hlc]
      have hrl : (classifyRight p1 p2 p3).x ≠ (classifyLeft p1 p2 p3).x :=
        fun h => hlc (by rw [hcr, h])
      have hcl : (classifyCenter p1 p2 p3).x ≠ (classifyLeft p1 p2 p3).x :=
        fun h => hlc h.symm
      split_ifs <;> exact ⟨sub_ne_zero_of_ne (by assumption),
                           sub_ne_zero_of_ne (by assumption)⟩
  · intro h1 h2
    have hlt1 : (classifyLeft p1 p2 p3).x < (classifyCenter p1 p2 p3).x := hLC.lt_of_ne h1
    have hlt2 : (classifyCenter p1 p2 p3).x < (classifyRight p1 p2 p3).x := hCR.lt_of_ne h2
    exact ⟨sub_ne_zero_of_ne (ne_of_gt hlt1),
           sub_ne_zero_of_ne (ne_of_gt (hlt1.trans hlt2)),
           sub_ne_zero_of_ne (ne_of_gt hlt2)⟩

lemma paintLoop_eq (top bot : α) :
    paintLoop top bot = if bot < top then top :: paintLoop (top - 1) bot else [] := by
  unfold paintLoop
  by_cases h : bot < top
  · rw [if_pos h]
    have hpos : 0 < top - bot := sub_pos.mpr h
    have hn : 1 ≤ ⌈top - bot⌉₊ := Nat.ceil_pos.mpr hpos
    have hceil : ⌈top - bot⌉₊ = ⌈top - 1 - bot⌉₊ + 1 := by
      have h1 : ⌈top - bot⌉₊ ≤ ⌈top - 1 - bot⌉₊ + 1 :=
        Nat.ceil_le.mpr (by push_cast; have := Nat.le_ceil (top - 1 - bot); linarith)
      have h2 : ⌈top - 1 - bot⌉₊ ≤ ⌈top - bot⌉₊ - 1 :=
        Nat.ceil_le.mpr (by
          rw [Nat.cast_sub hn, Nat.cast_one]
          have := Nat.le_ceil (top - bot); linarith)
      omega
    have hfun : ((fun k : ℕ => top - (k : α)) ∘ Nat.succ) = fun k : ℕ => top - 1 - (k : α) := by
      funext k
      simp only [Function.comp_apply]
      push_cast
      ring
    rw [hceil, List.range_succ_eq_map, List.map_cons, List.map_map, hfun]
    norm_num
  · rw [if_neg h]
    have h0 : ⌈top - bot⌉₊ = 0 := Nat.ceil_eq_zero.mpr (by linarith)
    simp [h0]

lemma paintLoop_mem (top bot y : α) :
    y ∈ paintLoop top bot ↔ ∃ k : ℕ, y = top - k ∧ bot < y := by
  unfold paintLoop
  rw [List.mem_map]
  constructor
  · rintro ⟨k, hk, he⟩
    rw [List.mem_range] at hk
    have hk2 : (k : α) < top - bot := Nat.lt_ceil.mp hk
    exact ⟨k, he.symm, by rw [← he]; linarith⟩
  · rintro ⟨k, hky, hy⟩
    refine ⟨k, ?_, hky.symm⟩
    rw [List.mem_range]
    apply Nat.lt_ceil.mpr
    rw [hky] at hy
    linarith

/-- C2 counterexample: a triangle whose three projected vertices all
coincide at the in-range point (2, 5) paints nothing at all, although
the claim requires the closed segment from min y to max y, here the
single pixel (2, 5), to be painted. -/
theorem c2_counterexample :
    rasterizeTriangle 10 (⟨2, 5⟩ : Point2 ℚ) ⟨2, 5⟩ ⟨2, 5⟩ = [] ∧
    ((2 : ℚ), (5 : ℚ)) ∉ rasterizeTriangle 10 (⟨2, 5⟩ : Point2 ℚ) ⟨2, 5⟩ ⟨2, 5⟩ := by
  have h : rasterizeTriangle 10 (⟨2, 5⟩ : Point2 ℚ) ⟨2, 5⟩ ⟨2, 5⟩ = [] := by
    unfold rasterizeTriangle selLeft selRight selCenter paintLoop
    norm_num
  exact ⟨h, by rw [h]; exact List.not_mem_nil _⟩

/-- C2 amended: for a triangle whose three projected vertices share one
screen x lying in [0, width), the paint requests are exactly at that x,
and the painted y values are exactly max y, max y - 1, and so on while
strictly above min y: the bottom endpoint min y is excluded, and a
zero-height segment (max y equal to min y) paints nothing. -/
theorem c2_amended {α : Type} [LinearOrderedField α] [FloorRing α]
    (w : ℕ) (p1 p2 p3 : Point2 α)
    (h12 : p1.x = p2.x) (h23 : p2.x = p3.x) (h0 : 0 ≤ p1.x) (hw : p1.x < (w : α))
    (c : α × α) :
    c ∈ rasterizeTriangle w p1 p2 p3 ↔
      c.1 = p1.x ∧ ∃ k : ℕ, c.2 = max (max p1.y p2.y) p3.y - k ∧
        min (min p1.y p2.y) p3.y < c.2 := by
  obtain ⟨c1, c2⟩ := c
  have hx2 : ¬ (p1.x > p2.x) := by rw [h12]; exact lt_irrefl _
  have hx3 : ¬ (p1.x > p3.x) := by rw [h12, h23]; exact lt_irrefl _
  have hx32 : ¬ (p3.x < p2.x) := by rw [h23]; exact lt_irrefl _
  have e1 : selLeft p1 p2 p3 = (p1, 1) := by
    unfold selLeft
    simp [hx2, hx3]
  have e2 : selRight p1 p2 p3 (p1, 1).2 = (p3, 3) := by
    unfold selRight
    simp [hx32]
  unfold rasterizeTriangle
  dsimp only
  rw [e1, e2]
  have e3 : selCenter p1 p2 p3 (p1, 1).2 (p3, 3).2 = p2 := by
    unfold selCenter
    norm_num
  rw [e3]
  rw [if_pos ⟨h12, h23⟩]
  rw [if_neg (by push_neg; exact ⟨h12 ▸ h0, h12 ▸ hw⟩)]
  rw [List.mem_map]
  constructor
  · rintro ⟨y, hy, he⟩
    rw [Prod.mk.injEq] at he
    obtain ⟨he1, he2⟩ := he
    obtain ⟨k, hk, hlt⟩ := (paintLoop_mem _ _ _).mp hy
    refine ⟨by rw [← he1, ← h12], k, ?_, ?_⟩
    · rw [← he2, hk]
    · rw [← he2]; exact hlt
  · rintro ⟨hc1, k, hc2, hlt⟩
    exact ⟨c2, (paintLoop_mem _ _ _).mpr ⟨k, hc2, hlt⟩, by rw [hc1, h12]⟩

/-- Witness for the amended C2 at a concrete vertical segment. -/
theorem c2_witness :
    ((2 : ℚ), (9 : ℚ)) ∈ rasterizeTriangle 10 (⟨2, 9⟩ : Point2 ℚ) ⟨2, 4⟩ ⟨2, 6⟩ :=
  (c2_amended 10 ⟨2, 9⟩ ⟨2, 4⟩ ⟨2, 6⟩ rfl rfl (by norm_num) (by norm_num) (2, 9)).mpr
    ⟨rfl, 0, by norm_num [max_def], by norm_num [min_def, max_def]⟩

/-- Witness for C7 at a concrete vertical-edge triangle. -/
theorem c7_witness :
    (vertTop (classifyLeft (⟨0, 0⟩ : Point2 ℚ) ⟨0, 2⟩ ⟨3, 1⟩)
        (classifyCenter (⟨0, 0⟩ : Point2 ℚ) ⟨0, 2⟩ ⟨3, 1⟩)
        (classifyRight (⟨0, 0⟩ : Point2 ℚ) ⟨0, 2⟩ ⟨3, 1⟩)).x -
      (vertSide (classifyLeft (⟨0, 0⟩ : Point2 ℚ) ⟨0, 2⟩ ⟨3, 1⟩)
        (classifyCenter (⟨0, 0⟩ : Point2 ℚ) ⟨0, 2⟩ ⟨3, 1⟩)
        (classifyRight (⟨0, 0⟩ : Point2 ℚ) ⟨0, 2⟩ ⟨3, 1⟩)).x ≠ 0 ∧
    (vertBottom (classifyLeft (⟨0, 0⟩ : Point2 ℚ) ⟨0, 2⟩ ⟨3, 1⟩)
        (classifyCenter (⟨0, 0⟩ : Point2 ℚ) ⟨0, 2⟩ ⟨3, 1⟩)
        (classifyRight (⟨0, 0⟩ : Point2 ℚ) ⟨0, 2⟩ ⟨3, 1⟩)).x -
      (vertSide (classifyLeft (⟨0, 0⟩ : Point2 ℚ) ⟨0, 2⟩ ⟨3, 1⟩)
        (classifyCenter (⟨0, 0⟩ : Point2 ℚ) ⟨0, 2⟩ ⟨3, 1⟩)
        (classifyRight (⟨0, 0⟩ : Point2 ℚ) ⟨0, 2⟩ ⟨3, 1⟩)).x ≠ 0 :=
  (c7_slope_denominators (⟨0, 0⟩ : Point2 ℚ) ⟨0, 2⟩ ⟨3, 1⟩).1
    (Or.inl (by norm_num [classifyLeft, classifyCenter, selLeft, selRight, selCenter]))
    (by norm_num [classifyLeft, classifyCenter, classifyRight, selLeft, selRight, selCenter])

lemma compareTriangles_le_iff (cam : Vec3 α) (a b : Triangle α) :
    compareTriangles cam a b ≤ 0 ↔ distSq cam b ≤ distSq cam a := by
  unfold compareTriangles
  split_ifs with h1 h2
  · exact iff_of_true le_rfl (le_of_eq h1.symm)
  · exact iff_of_false (by norm_num) (not_le.mpr h2)
  · exact iff_of_true (by norm_num)
      (lt_of_le_of_ne (not_lt.mp h2) (fun h => h1 h.symm)).le

/-- C6: in the sorted per-frame copy, any triangle at a lower index has
squared centroid distance from the camera at least that of any triangle
at a higher index (farther triangles first, back to front).  The C
library qsort is modelled as a comparator-sorted permutation of the
input, realized by mergeSort over the nonpositive-comparator
predicate. -/
theorem c6_sorted {α : Type} [LinearOrderedField α] [FloorRing α]
    (cam : Vec3 α) (l : List (Triangle α)) (i j : ℕ) (hij : i < j)
    (hj : j < (sortTriangles cam l).length) :
    distSq cam ((sortTriangles cam l).get ⟨j, hj⟩) ≤
      distSq cam ((sortTriangles cam l).get ⟨i, lt_trans hij hj⟩) := by
  have htrans : ∀ a b c : Triangle α,
      (fun x y => decide (compareTriangles cam x y ≤ 0)) a b →
      (fun x y => decide (compareTriangles cam x y ≤ 0)) b c →
      (fun x y => decide (compareTriangles cam x y ≤ 0)) a c := by
    intro a b c hab hbc
    simp only [decide_eq_true_iff] at hab hbc ⊢
    rw [compareTriangles_le_iff] at hab hbc ⊢
    exact le_trans hbc hab
  have htotal : ∀ a b : Triangle α,
      ((fun x y => decide (compareTriangles cam x y ≤ 0)) a b ||
        (fun x y => decide (compareTriangles cam x y ≤ 0)) b a) = true := by
    intro a b
    rcases le_total (distSq cam b) (distSq cam a) with h | h <;>
      simp only [Bool.or_eq_true, decide_eq_true_iff]
    · exact Or.inl ((compareTriangles_le_iff cam a b).mpr h)
    · exact Or.inr ((compareTriangles_le_iff cam b a).mpr h)
  have hpw := List.sorted_mergeSort htrans htotal l
  have hget := List.pairwise_iff_getElem.mp hpw i j
    (lt_trans hij hj) hj hij
  simp only [decide_eq_true_iff] at hget
  rw [compareTriangles_le_iff] at hget
  exact hget

/-- Witness for C6 on a concrete two-triangle list: the nearer triangle
listed first ends up after the farther one. -/
theorem c6_witness :
    distSq (⟨0, 0, 0⟩ : Vec3 ℚ)
        ((sortTriangles (⟨0, 0, 0⟩ : Vec3 ℚ)
            [⟨1, ⟨1, 0, 0⟩, ⟨1, 0, 0⟩, ⟨1, 0, 0⟩⟩,
             ⟨2, ⟨4, 0, 0⟩, ⟨4, 0, 0⟩, ⟨4, 0, 0⟩⟩]).get
          ⟨1, by rw [sortTriangles, List.length_mergeSort]; norm_num⟩) ≤
      distSq (⟨0, 0, 0⟩ : Vec3 ℚ)
        ((sortTriangles (⟨0, 0, 0⟩ : Vec3 ℚ)
            [⟨1, ⟨1, 0, 0⟩, ⟨1, 0, 0⟩, ⟨1, 0, 0⟩⟩,
             ⟨2, ⟨4, 0, 0⟩, ⟨4, 0, 0⟩, ⟨4, 0, 0⟩⟩]).get
          ⟨0, by rw [sortTriangles, List.length_mergeSort]; norm_num⟩) :=
  c6_sorted (⟨0, 0, 0⟩ : Vec3 ℚ)
    [⟨1, ⟨1, 0, 0⟩, ⟨1, 0, 0⟩, ⟨1, 0, 0⟩⟩, ⟨2, ⟨4, 0, 0⟩, ⟨4, 0, 0⟩, ⟨4, 0, 0⟩⟩]
    0 1 (by norm_num) (by rw [sortTriangles, List.length_mergeSort]; norm_num)

lemma paintPixel_width (f : Framebuffer) (x y c : ℕ) :
    (paintPixel f x y c).width = f.width := by
  unfold paintPixel; split_ifs <;> rfl

lemma paintPixel_height (f : Framebuffer) (x y c : ℕ) :
    (paintPixel f x y c).height = f.height := by
  unfold paintPixel; split_ifs <;> rfl

lemma paintPixel_buffer_high (f : Framebuffer) (x y c i : ℕ)
    (hi : f.width * f.height ≤ i) : (paintPixel f x y c).buffer i = f.buffer i := by
  unfold paintPixel
  split_ifs with h
  · have h1 : x + y * f.width < (y + 1) * f.width := by
      rw [add_mul, one_mul]; omega
    have h2 : (y + 1) * f.width ≤ f.height * f.width :=
      Nat.mul_le_mul_right _ h.2
    have h3 : x + y * f.width < f.width * f.height := by
      rw [Nat.mul_comm f.width f.height]; omega
    simp only
    rw [if_neg (by omega)]
  · rfl

lemma paintPixelf_width (f : Framebuffer) (x y : α) (c : ℕ) :
    (paintPixelf f x y c).width = f.width := by
  unfold paintPixelf
  split_ifs
  · exact paintPixel_width ..
  · rfl

lemma paintPixelf_height (f : Framebuffer) (x y : α) (c : ℕ) :
    (paintPixelf f x y c).height = f.height := by
  unfold paintPixelf
  split_ifs
  · exact paintPixel_height ..
  · rfl

lemma paintPixelf_buffer_high (f : Framebuffer) (x y : α) (c i : ℕ)
    (hi : f.width * f.height ≤ i) : (paintPixelf f x y c).buffer i = f.buffer i := by
  unfold paintPixelf
  split_ifs
  · exact paintPixel_buffer_high _ _ _ _ _ hi
  · rfl

lemma paintAll_width (f : Framebuffer) (reqs : List (α × α)) (c : ℕ) :
    (paintAll f reqs c).width = f.width := by
  induction reqs generalizing f with
  | nil => rfl
  | cons r rs ih =>
      unfold paintAll at ih ⊢
      rw [List.foldl_cons, ih, paintPixelf_width]

lemma paintAll_height (f : Framebuffer) (reqs : List (α × α)) (c : ℕ) :
    (paintAll f reqs c).height = f.height := by
  induction reqs generalizing f with
  | nil => rfl
  | cons r rs ih =>
      unfold paintAll at ih ⊢
      rw [List.foldl_cons, ih, paintPixelf_height]

lemma paintAll_buffer_high (f : Framebuffer) (reqs : List (α × α)) (c i : ℕ)
    (hi : f.width * f.height ≤ i) : (paintAll f reqs c).buffer i = f.buffer i := by
  induction reqs generalizing f with
  | nil => rfl
  | cons r rs ih =>
      unfold paintAll at ih ⊢
      rw [List.foldl_cons, ih, paintPixelf_buffer_high _ _ _ _ _ hi]
      rw [paintPixelf_width, paintPixelf_height]
      exact hi

lemma renderFold_buffer_high (camera : Camera ℝ) (w h : ℕ) (ts : List (Triangle ℝ))
    (f : Framebuffer) (i : ℕ) (hi : f.width * f.height ≤ i) :
    (ts.foldl (fun g t => paintAll g (triangleRequests camera w h t) t.color) f).buffer i =
      f.buffer i := by
  induction ts generalizing f with
  | nil => rfl
  | cons t ts ih =>
      rw [List.foldl_cons, ih, paintAll_buffer_high _ _ _ _ hi]
      rw [paintAll_width, paintAll_height]
      exact hi

/-- C4: every framebuffer write of Render_Engine_RenderFrame lands at a
flat index below width * height (indices at or above it are never
changed by a render), and any fractional paint request outside the
pixel range, negative or too large, is silently dropped with the
framebuffer unchanged. -/
theorem c4_bounds :
    (∀ (frame : Framebuffer) (x y : ℝ) (color : ℕ),
        ¬(0 ≤ x ∧ 0 ≤ y ∧ ⌊x⌋₊ < frame.width ∧ ⌊y⌋₊ < frame.height) →
        paintPixelf frame x y color = frame) ∧
    (∀ (world : World ℝ) (camera : Camera ℝ) (frame : Framebuffer) (i : ℕ),
        frame.width * frame.height ≤ i →
        (renderFrame world camera frame).buffer i = frame.buffer i) := by
  constructor
  · intro frame x y color hreq
    unfold paintPixelf
    split_ifs with h0
    · unfold paintPixel
      rw [if_neg (fun hin => hreq ⟨h0.1, h0.2, hin.1, hin.2⟩)]
    · rfl
  · intro world camera frame i hi
    unfold renderFrame
    rw [renderFold_buffer_high _ _ _ _ _ i (by rw [show (clearFrame world.backgroundColor frame).width = frame.width from rfl,
          show (clearFrame world.backgroundColor frame).height = frame.height from rfl]; exact hi)]
    unfold clearFrame
    simp only
    rw [if_neg (not_lt.mpr hi)]

/-- Witness for C4: a negative-coordinate request is dropped, and a
render leaves an index beyond the buffer untouched. -/
theorem c4_witness :
    paintPixelf (⟨2, 2, fun _ => 7⟩ : Framebuffer) (-1 : ℝ) 0 3 = ⟨2, 2, fun _ => 7⟩ ∧
    (renderFrame ⟨0, []⟩ ⟨⟨0, 0, 0⟩, ⟨0, 0, 0⟩, 90, 90⟩
        (⟨2, 2, fun _ => 7⟩ : Framebuffer)).buffer 5 =
      (⟨2, 2, fun _ => 7⟩ : Framebuffer).buffer 5 :=
  ⟨c4_bounds.1 ⟨2, 2, fun _ => 7⟩ (-1) 0 3 (fun h => absurd h.1 (by norm_num)),
   c4_bounds.2 ⟨0, []⟩ ⟨⟨0, 0, 0⟩, ⟨0, 0, 0⟩, 90, 90⟩ ⟨2, 2, fun _ => 7⟩ 5 (by norm_num)⟩

/-- C3 counterexample: writeTerminalNumber emits no byte at all for the
number 0, although the claim requires at least the ones digit to be
emitted for every input. -/
theorem c3_counterexample : writeTerminalNumber 0 = [] := rfl

/-- C3 amended: for every nonzero number below 256, writeTerminalNumber
emits exactly the decimal ASCII digits of the number, most significant
first, with leading zeros suppressed; for 0 it emits nothing (see the
counterexample). -/
theorem c3_amended (n : ℕ) (h0 : 0 < n) (h256 : n < 256) :
    writeTerminalNumber n = ((Nat.digits 10 n).map (fun d => d + 48)).reverse := by
  unfold writeTerminalNumber
  rcases Nat.lt_or_ge n 10 with h10 | h10
  · have e1 : n / 100 % 10 = 0 := by omega
    have e2 : n / 10 % 10 = 0 := by omega
    have hd : Nat.digits 10 n = [n] := by
      rw [Nat.digits_def' (by norm_num : 1 < 10) h0, show n / 10 = 0 by omega,
        Nat.digits_zero, show n % 10 = n by omega]
    rw [hd]
    simp [e1, e2, h0, show n % 10 = n by omega]
  · rcases Nat.lt_or_ge n 100 with h100 | h100
    · have e1 : n / 100 % 10 = 0 := by omega
      have e2 : 0 < n / 10 % 10 := by omega
      have hd : Nat.digits 10 n = [n % 10, n / 10 % 10] := by
        rw [Nat.digits_def' (by norm_num : 1 < 10) h0,
          Nat.digits_def' (by norm_num : 1 < 10) (show 0 < n / 10 by omega),
          show n / 10 / 10 = 0 by omega, Nat.digits_zero,
          show n / 10 % 10 = n / 10 by omega]
      rw [hd]
      simp [e1, e2]
    · have e1 : 0 < n / 100 % 10 := by omega
      have hd : Nat.digits 10 n = [n % 10, n / 10 % 10, n / 100 % 10] := by
        rw [Nat.digits_def' (by norm_num : 1 < 10) h0,
          Nat.digits_def' (by norm_num : 1 < 10) (show 0 < n / 10 by omega),
          show n / 10 / 10 = n / 100 by omega,
          Nat.digits_def' (by norm_num : 1 < 10) (show 0 < n / 100 by omega),
          show n / 100 / 10 = 0 by omega, Nat.digits_zero,
          show n / 100 % 10 = n / 100 by omega]
      rw [hd]
      simp [e1]

/-- Witness for the amended C3 at the concrete number 105. -/
theorem c3_witness :
    writeTerminalNumber 105 = ((Nat.digits 10 105).map (fun d => d + 48)).reverse :=
  c3_amended 105 (by norm_num) (by norm_num)

lemma displayLoop_zero_split (frame : Framebuffer) :
    ∀ (p fuel i : ℕ), p ≤ fuel →
      (∀ j, i ≤ j → j < i + p → frame.buffer j = 0) →
      ∃ out : List ℕ,
        displayLoop frame fuel i 0 =
          out ++ displayLoop frame (fuel - p) (i + p) 0 ∧
        109 ∉ out ∧ List.count 32 out = p ∧
        ∀ b ∈ out, b = 32 ∨ b = 13 ∨ b = 10 := by
  intro p
  induction p with
  | zero =>
      intro fuel i _ _
      exact ⟨[], by simp, List.not_mem_nil _, rfl, by simp⟩
  | succ p ih =>
      intro fuel i hpf hzero
      obtain ⟨fuel', rfl⟩ : ∃ g, fuel = g + 1 := ⟨fuel - 1, by omega⟩
      have hbuf : frame.buffer i = 0 := hzero i le_rfl (by omega)
      obtain ⟨out', he', h109', h32', hall'⟩ :=
        ih fuel' (i + 1) (by omega) (fun j h1 h2 => hzero j (by omega) (by omega))
      refine ⟨(if 0 < i ∧ i % frame.width = 0 then [13, 10] else []) ++ 32 :: out',
        ?_, ?_, ?_, ?_⟩
      · rw [displayLoop]
        rw [if_neg (show ¬(0 ≠ frame.buffer i) from fun h => h hbuf.symm), he']
        rw [show fuel' + 1 - (p + 1) = fuel' - p by omega,
          show i + (p + 1) = i + 1 + p by omega]
        simp [List.append_assoc]
      · intro hmem
        rcases List.mem_append.mp hmem with hsep | hrest
        · split_ifs at hsep <;> simp_all
        · rcases List.mem_cons.mp hrest with h32m | htail
          · exact absurd h32m (by norm_num)
          · exact h109' htail
      · rw [List.count_append, List.count_cons, h32']
        have hsep : List.count 32 (if 0 < i ∧ i % frame.width = 0 then [13, 10] else []) = 0 := by
          split_ifs <;> rfl
        rw [hsep]
        norm_num
      · intro b hb
        rcases List.mem_append.mp hb with hsep | hrest
        · split_ifs at hsep <;> simp_all
        · rcases List.mem_cons.mp hrest with hbe | htail
          · exact Or.inl hbe
          · exact hall' b htail

lemma displayLoop_sep_mem (frame : Framebuffer) :
    ∀ (fuel i last : ℕ),
      (∃ j, i ≤ j ∧ j < i + fuel ∧ 0 < j ∧ j % frame.width = 0) →
      13 ∈ displayLoop frame fuel i last ∧ 10 ∈ displayLoop frame fuel i last := by
  intro fuel
  induction fuel with
  | zero =>
      rintro i last ⟨j, h1, h2, -, -⟩
      omega
  | succ fuel ih =>
      rintro i last ⟨j, h1, h2, hj0, hjw⟩
      unfold displayLoop
      by_cases hji : j = i
      · subst hji
        rw [if_pos ⟨hj0, hjw⟩]
        constructor <;> split_ifs <;> simp
      · have hrec1 := ih (i + 1) (frame.buffer i) ⟨j, by omega, by omega, hj0, hjw⟩
        have hrec2 := ih (i + 1) last ⟨j, by omega, by omega, hj0, hjw⟩
        constructor <;> split_ifs <;>
          simp [List.mem_append, hrec1.1, hrec1.2, hrec2.1, hrec2.2]

/-- C10: Render_Engine_DisplayFrame starts its previously-emitted-color
tracker at color 0, so for any framebuffer whose first p cells (in
row-major scan order) are color 0, the bytes emitted for those p cells
contain no color-change sequence: they are exactly spaces (byte 32, one
per cell) and row separators (bytes 13 and 10), with no byte m (109),
the terminator of every color-change sequence and a byte occurring in
no other emitted sequence; the rest of the output resumes at cell p
with the tracker still 0.  In particular, for a framebuffer whose cells
are all color 0 the whole output contains no color-change sequence, one
space per cell, and (for at least two nonempty rows) the row
separators. -/
theorem c10_no_color_change :
    (∀ (frame : Framebuffer) (p : ℕ), p ≤ frame.width * frame.height →
      (∀ j, j < p → frame.buffer j = 0) →
      ∃ out : List ℕ,
        displayFrame frame =
          changeTerminalCursorLocation 0 0 ++
            (out ++ displayLoop frame (frame.width * frame.height - p) p 0) ∧
        109 ∉ out ∧ List.count 32 out = p ∧
        ∀ b ∈ out, b = 32 ∨ b = 13 ∨ b = 10) ∧
    (∀ frame : Framebuffer,
      (∀ j, j < frame.width * frame.height → frame.buffer j = 0) →
      109 ∉ displayFrame frame ∧
      List.count 32 (displayFrame frame) = frame.width * frame.height ∧
      (0 < frame.width → 2 ≤ frame.height →
        13 ∈ displayFrame frame ∧ 10 ∈ displayFrame frame)) := by
  constructor
  · intro frame p hp hzero
    obtain ⟨out, he, h109, h32, hall⟩ :=
      displayLoop_zero_split frame p (frame.width * frame.height) 0 hp
        (fun j _ h2 => hzero j (by omega))
    rw [Nat.zero_add] at he
    exact ⟨out, by unfold displayFrame; rw [he], h109, h32, hall⟩
  · intro frame hall0
    obtain ⟨out, he, h109, h32, hall⟩ :=
      displayLoop_zero_split frame (frame.width * frame.height)
        (frame.width * frame.height) 0 le_rfl (fun j _ h2 => hall0 j (by omega))
    rw [Nat.zero_add, Nat.sub_self,
      show displayLoop frame 0 (frame.width * frame.height) 0 = [] from rfl,
      List.append_nil] at he
    refine ⟨?_, ?_, ?_⟩
    · intro hmem
      rcases List.mem_append.mp ((by unfold displayFrame at hmem; exact hmem) :
          109 ∈ changeTerminalCursorLocation 0 0 ++
            displayLoop frame (frame.width * frame.height) 0 0) with hcur | hloop
      · exact absurd hcur (by decide)
      · rw [he] at hloop
        exact h109 hloop
    · unfold displayFrame
      rw [List.count_append, he, h32,
        show List.count 32 (changeTerminalCursorLocation 0 0) = 0 from rfl]
      omega
    · intro hw hh
      have hmul : frame.width * 2 ≤ frame.width * frame.height :=
        Nat.mul_le_mul_left _ hh
      have hsep := displayLoop_sep_mem frame (frame.width * frame.height) 0 0
        ⟨frame.width, by omega, by omega, hw, Nat.mod_self _⟩
      constructor
      · unfold displayFrame
        exact List.mem_append.mpr (Or.inr hsep.1)
      · unfold displayFrame
        exact List.mem_append.mpr (Or.inr hsep.2)

/-- Witness for C10: the general prefix part applied to a concrete 2 by
2 framebuffer whose first two cells are color 0 and the rest color 9,
and the all-zero part applied to a concrete all-zero 2 by 2
framebuffer. -/
theorem c10_witness :
    (∃ out : List ℕ,
        displayFrame ⟨2, 2, fun i => if i < 2 then 0 else 9⟩ =
          changeTerminalCursorLocation 0 0 ++
            (out ++ displayLoop ⟨2, 2, fun i => if i < 2 then 0 else 9⟩ (2 * 2 - 2) 2 0) ∧
        109 ∉ out ∧ List.count 32 out = 2 ∧
        ∀ b ∈ out, b = 32 ∨ b = 13 ∨ b = 10) ∧
    (109 ∉ displayFrame ⟨2, 2, fun _ => 0⟩ ∧
      List.count 32 (displayFrame ⟨2, 2, fun _ => 0⟩) = 2 * 2 ∧
      (0 < 2 → 2 ≤ 2 →
        13 ∈ displayFrame ⟨2, 2, fun _ => 0⟩ ∧ 10 ∈ displayFrame ⟨2, 2, fun _ => 0⟩)) :=
  ⟨c10_no_color_change.1 ⟨2, 2, fun i => if i < 2 then 0 else 9⟩ 2 (by norm_num)
      (fun j hj => if_pos hj),
   c10_no_color_change.2 ⟨2, 2, fun _ => 0⟩ (fun _ _ => rfl)⟩

lemma fmod_nonneg_lt (a : α) (ha : 0 ≤ a) : 0 ≤ fmod a 360 ∧ fmod a 360 < 360 := by
  unfold fmod truncToZero
  rw [if_pos (by positivity : (0 : α) ≤ a / 360)]
  have e : (360 : α) * (a / 360) = a := by field_simp
  have h1 : (360 : α) * (⌊a / 360⌋ : α) ≤ 360 * (a / 360) :=
    mul_le_mul_of_nonneg_left (Int.floor_le (a / 360)) (by norm_num)
  have h2 : (360 : α) * (a / 360) < 360 * ((⌊a / 360⌋ : α) + 1) :=
    mul_lt_mul_of_pos_left (Int.lt_floor_add_one (a / 360)) (by norm_num)
  rw [e] at h1 h2
  constructor <;> nlinarith

/-- C8 counterexample: a yaw of exactly 180 degrees normalizes to -180,
which lies outside the claimed canonical range (-180, 180]. -/
theorem c8_counterexample :
    normalizeYaw (180 : ℝ) = -180 ∧ ¬ (-180 < normalizeYaw (180 : ℝ)) := by
  have h : normalizeYaw (180 : ℝ) = -180 := by
    unfold normalizeYaw fmod truncToZero
    norm_num
  exact ⟨h, by rw [h]; exact lt_irrefl _⟩

/-- C8 amended: the normalized yaw equals the claimed formula
((|yaw| + 180) mod 360) - 180 with the sign reapplied for negative yaw,
and it lies in the closed range [-180, 180]; the left endpoint -180 is
attained (at yaw = 180, see the counterexample), so the claimed
half-open range (-180, 180] is enlarged to the closed one. -/
theorem c8_amended (yaw : ℝ) :
    normalizeYaw yaw = yawFormulaSpec yaw ∧
    -180 ≤ normalizeYaw yaw ∧ normalizeYaw yaw ≤ 180 := by
  have habs : (if yaw < 0 then -yaw else yaw) = |yaw| := by
    split_ifs with h
    · exact (abs_of_neg h).symm
    · exact (abs_of_nonneg (not_lt.mp h)).symm
  have ha : (0 : ℝ) ≤ |yaw| + 180 := by positivity
  have hfmod := fmod_nonneg_lt (|yaw| + 180) ha
  have heq : fmod (|yaw| + 180) 360 =
      (|yaw| + 180) - 360 * (⌊(|yaw| + 180) / 360⌋ : ℝ) := by
    unfold fmod truncToZero
    rw [if_pos (by positivity : (0 : ℝ) ≤ (|yaw| + 180) / 360)]
  constructor
  · unfold normalizeYaw yawFormulaSpec
    dsimp only
    rw [habs, heq]
  · unfold normalizeYaw
    dsimp only
    rw [habs]
    split_ifs with h
    · constructor <;> linarith [hfmod.1, hfmod.2]
    · constructor <;> linarith [hfmod.1, hfmod.2]

/-- C1 counterexample: at a pitch of exactly 0 the z-component of the
camera heading is 0, not the 10000 required by the claim: the integer
sign expression (v greater than 0) minus (v less than 0) is 0 at 0, and
the tangent branch of the C ternary is the one taken at or beyond 90
radians, not degrees. -/
theorem c1_counterexample :
    (cameraDirection (⟨0, 0, 0⟩ : Vec3 ℝ)).z = 0 ∧
    (cameraDirection (⟨0, 0, 0⟩ : Vec3 ℝ)).z ≠ 10000 := by
  have h : (cameraDirection (⟨0, 0, 0⟩ : Vec3 ℝ)).z = 0 := by
    unfold cameraDirection camDirZ cameraVerticalAngle
    norm_num
  exact ⟨h, by rw [h]; norm_num⟩

/-- C1 amended: the z-component of the camera heading equals the
amended formula: tangent of the radian pitch only when the radian pitch
value reaches 90 in magnitude (degree pitch times pi at least 16200 in
magnitude), otherwise the three-way sign of the pitch scaled by 10000;
in particular pitch 0 yields 0. -/
theorem c1_amended :
    (∀ rotation : Vec3 ℝ, (cameraDirection rotation).z = pitchHeadingAmended rotation.y) ∧
    (cameraDirection (⟨0, 0, 0⟩ : Vec3 ℝ)).z = 0 := by
  constructor
  · intro rot
    unfold cameraDirection camDirZ pitchHeadingAmended cameraVerticalAngle
    dsimp only
    have h180 : (0 : ℝ) < 180 := by norm_num
    have hcond : (rot.y * Real.pi / 180 ≤ -90 ∨ 90 ≤ rot.y * Real.pi / 180) ↔
        16200 ≤ |rot.y| * Real.pi := by
      rw [div_le_iff₀ h180, le_div_iff₀ h180]
      constructor
      · rintro (h | h)
        · calc (16200 : ℝ) ≤ -(rot.y * Real.pi) := by linarith
            _ ≤ |rot.y * Real.pi| := neg_le_abs _
            _ = |rot.y| * Real.pi := by rw [abs_mul, abs_of_pos Real.pi_pos]
        · calc (16200 : ℝ) ≤ rot.y * Real.pi := by linarith
            _ ≤ |rot.y * Real.pi| := le_abs_self _
            _ = |rot.y| * Real.pi := by rw [abs_mul, abs_of_pos Real.pi_pos]
      · intro h
        rcases abs_cases rot.y with ⟨he, _⟩ | ⟨he, _⟩
        · right
          rw [he] at h
          linarith
        · left
          rw [he] at h
          nlinarith [Real.pi_pos]
    rcases Classical.em (rot.y * Real.pi / 180 ≤ -90 ∨ 90 ≤ rot.y * Real.pi / 180) with hc | hc
    · rw [if_pos hc, if_pos (hcond.mp hc)]
    · rw [if_neg hc, if_neg (fun hx => hc (hcond.mpr hx))]
      rcases lt_trichotomy rot.y 0 with h | h | h
      · have hneg : rot.y * Real.pi / 180 < 0 :=
          div_neg_of_neg_of_pos (mul_neg_of_neg_of_pos h Real.pi_pos) h180
        rw [if_neg (by linarith), if_pos hneg, if_neg (by linarith : ¬ 0 < rot.y), if_pos h]
        norm_num
      · rw [h]
        norm_num
      · have hpos : 0 < rot.y * Real.pi / 180 :=
          div_pos (mul_pos h Real.pi_pos) h180
        rw [if_pos hpos, if_neg (by linarith), if_pos h]
        norm_num
  · unfold cameraDirection camDirZ cameraVerticalAngle
    norm_num

lemma atan2_zero_one : atan2 0 1 = 0 := by
  unfold atan2
  rw [show (⟨1, 0⟩ : ℂ) = 1 from Complex.ext rfl rfl]
  exact Complex.arg_one

lemma cameraHorizontalAngle_zero : cameraHorizontalAngle 0 = 0 := by
  unfold cameraHorizontalAngle normalizeYaw fmod truncToZero
  norm_num

lemma cameraDirection_zero : cameraDirection (⟨0, 0, 0⟩ : Vec3 ℝ) = ⟨1, 0, 0⟩ := by
  unfold cameraDirection camDirZ cameraVerticalAngle
  rw [show (⟨0, 0, 0⟩ : Vec3 ℝ).z = 0 from rfl, show (⟨0, 0, 0⟩ : Vec3 ℝ).y = 0 from rfl,
    cameraHorizontalAngle_zero]
  norm_num

lemma pointToScreen_unit (aH aV : ℝ) :
    pointToScreen (⟨1, 0, 0⟩ : Vec3 ℝ) 0 0 aH aV 1 1 = ⟨1, 1⟩ := by
  unfold pointToScreen
  dsimp only
  have hpi := Real.pi_pos
  rw [if_neg (by norm_num : ¬((1 : ℝ) = 0 ∧ (0 : ℝ) = 0))]
  rw [if_neg (by norm_num : ¬((1 : ℝ) = 0 ∧ (0 : ℝ) = 0 ∧ (0 : ℝ) = 0))]
  rw [atan2_zero_one]
  rw [show (1 : ℝ) * 1 + 0 * 0 = 1 by norm_num, Real.sqrt_one, atan2_zero_one]
  rw [if_neg (by norm_num; linarith : ¬((0 : ℝ) - 0 ≤ -Real.pi))]
  rw [if_neg (by norm_num; linarith : ¬((0 : ℝ) - 0 > Real.pi))]
  norm_num

/-- C5 counterexample: a degenerate triangle in front of the camera
(all vertices at (1,0,0), camera at the origin looking along positive
x) has a positive heading dot product at every vertex, yet paints no
pixel: it projects to a single in-range point and the vertical-line
countdown loop runs zero iterations.  This refutes the claimed
equivalence between painting nothing and rear-hemisphere dot
products. -/
theorem c5_counterexample :
    triangleRequests (⟨⟨0, 0, 0⟩, ⟨0, 0, 0⟩, 90, 90⟩ : Camera ℝ) 2 2
        ⟨5, ⟨1, 0, 0⟩, ⟨1, 0, 0⟩, ⟨1, 0, 0⟩⟩ = [] ∧
    ¬ (dotProduct (pDelta (⟨⟨0, 0, 0⟩, ⟨0, 0, 0⟩, 90, 90⟩ : Camera ℝ) ⟨1, 0, 0⟩)
        (cameraDirection (⟨0, 0, 0⟩ : Vec3 ℝ)) ≤ 0) := by
  have hdelta : pDelta (⟨⟨0, 0, 0⟩, ⟨0, 0, 0⟩, 90, 90⟩ : Camera ℝ) ⟨1, 0, 0⟩ =
      (⟨1, 0, 0⟩ : Vec3 ℝ) := by
    unfold pDelta
    norm_num
  have hdot : dotProduct (⟨1, 0, 0⟩ : Vec3 ℝ) ⟨1, 0, 0⟩ = 1 := by
    unfold dotProduct
    norm_num
  have hcv : cameraVerticalAngle 0 = 0 := by
    unfold cameraVerticalAngle
    norm_num
  constructor
  · unfold triangleRequests
    dsimp only
    rw [hdelta, cameraDirection_zero, hdot]
    rw [if_neg (by norm_num)]
    rw [cameraHorizontalAngle_zero, hcv]
    rw [show (2 : ℕ) / 2 = 1 from rfl]
    rw [pointToScreen_unit]
    unfold rasterizeTriangle selLeft selRight selCenter paintLoop
    norm_num
  · rw [hdelta, cameraDirection_zero, hdot]
    norm_num

/-- C5 amended: the cull branch is taken exactly when all three vertex
deltas have nonpositive dot product with the heading, and in that case
the triangle is skipped entirely: no paint request is issued and the
framebuffer is left unchanged.  The converse of the claim fails (see
the counterexample): a surviving triangle can still paint nothing. -/
theorem c5_amended (camera : Camera ℝ) (w h : ℕ) (t : Triangle ℝ) (f : Framebuffer)
    (h1 : dotProduct (pDelta camera t.p1) (cameraDirection camera.rotation) ≤ 0)
    (h2 : dotProduct (pDelta camera t.p2) (cameraDirection camera.rotation) ≤ 0)
    (h3 : dotProduct (pDelta camera t.p3) (cameraDirection camera.rotation) ≤ 0) :
    triangleRequests camera w h t = [] ∧
    paintAll f (triangleRequests camera w h t) t.color = f := by
  have he : triangleRequests camera w h t = [] := by
    unfold triangleRequests
    dsimp only
    rw [if_pos ⟨h1, h2, h3⟩]
  exact ⟨he, by rw [he]; rfl⟩

/-- Witness for the amended C5: a triangle with all vertices behind the
origin-based camera is fully culled. -/
theorem c5_witness :
    triangleRequests (⟨⟨0, 0, 0⟩, ⟨0, 0, 0⟩, 90, 90⟩ : Camera ℝ) 2 2
        ⟨5, ⟨-1, 0, 0⟩, ⟨-1, 0, 0⟩, ⟨-1, 0, 0⟩⟩ = [] ∧
    paintAll (⟨2, 2, fun _ => 7⟩ : Framebuffer)
        (triangleRequests (⟨⟨0, 0, 0⟩, ⟨0, 0, 0⟩, 90, 90⟩ : Camera ℝ) 2 2
          ⟨5, ⟨-1, 0, 0⟩, ⟨-1, 0, 0⟩, ⟨-1, 0, 0⟩⟩) 5 = ⟨2, 2, fun _ => 7⟩ := by
  have hd : ∀ p : Vec3 ℝ, p = ⟨-1, 0, 0⟩ →
      dotProduct (pDelta (⟨⟨0, 0, 0⟩, ⟨0, 0, 0⟩, 90, 90⟩ : Camera ℝ) p)
        (cameraDirection ((⟨⟨0, 0, 0⟩, ⟨0, 0, 0⟩, 90, 90⟩ : Camera ℝ).rotation)) ≤ 0 := by
    rintro p rfl
    rw [show (⟨⟨0, 0, 0⟩, ⟨0, 0, 0⟩, 90, 90⟩ : Camera ℝ).rotation = ⟨0, 0, 0⟩ from rfl,
      cameraDirection_zero]
    unfold pDelta dotProduct
    norm_num
  exact c5_amended ⟨⟨0, 0, 0⟩, ⟨0, 0, 0⟩, 90, 90⟩ 2 2
    ⟨5, ⟨-1, 0, 0⟩, ⟨-1, 0, 0⟩, ⟨-1, 0, 0⟩⟩ ⟨2, 2, fun _ => 7⟩
    (hd _ rfl) (hd _ rfl) (hd _ rfl)
